import Mathlib

/-!
Verification of the GoNo vault manager (src/main.go).

The program manipulates filesystem paths as strings through Go's
`path/filepath` package.  The embedding represents an absolute path by its
list of segments: the Go string `"/v/Notes"` is the segment list
`["v", "Notes"]`, and the root `"/"` is `[]`.  Segments never contain the
separator character; raw (uncleaned) paths may contain `""`, `"."` and
`".."` segments, which `clean` (the segment-level `path.Clean` for absolute
paths) eliminates exactly as Go does.  `filepath.Abs` either cleans an
absolute path or fails (when the working directory cannot be determined);
the type `GoPath` carries both cases.  Characters are Unicode code points;
the character classifications (`Char.isAlpha`, `Char.isDigit`,
`Char.toLower`, `Char.isWhitespace`) coincide with Go's `unicode` package
on the ASCII range, which the embedding uses.
-/

namespace GoNo

/-- A path segment: one component of a slash-separated path. -/
abbrev Seg := String

/-- An absolute, cleaned path, as its list of segments (root = `[]`). -/
abbrev AbsPath := List Seg

/-- A segment is irreducible when it is none of `""`, `"."`, `".."`;
cleaned absolute paths consist solely of irreducible segments. -/
def goodSeg (s : Seg) : Prop := s ≠ "" ∧ s ≠ "." ∧ s ≠ ".."

/-- One step of `path.Clean` on an absolute path: empty and `"."` segments
are dropped, `".."` pops the previous segment (a no-op at the root, as in
Go, where `Clean("/..") = "/"`), and any other segment is appended. -/
def cleanStep (acc : List Seg) (s : Seg) : List Seg :=
  if s = "" ∨ s = "." then acc
  else if s = ".." then acc.dropLast
  else acc ++ [s]

/-- `path.Clean` for an absolute path, at the segment level. -/
def clean (segs : List Seg) : AbsPath := segs.foldl cleanStep []

/-- A path handed to `filepath.Abs`: either an absolute path (possibly
uncleaned), or a path whose resolution fails (Go's `Abs` fails when the
working directory is unavailable). -/
inductive GoPath
  | abs (segs : List Seg)
  | unresolvable
deriving DecidableEq

/-- `filepath.Abs`: cleans an absolute path, or fails. -/
def filepathAbs : GoPath → Option AbsPath
  | .abs segs => some (clean segs)
  | .unresolvable => none

/-- `filepath.Rel base targ` for two cleaned absolute paths (for which Go's
`Rel` cannot fail): drop the common leading segments, then one `".."` per
remaining base segment followed by the remaining target segments.  The Go
result string `"."` is represented by `[]`. -/
def relSegs : List Seg → List Seg → List Seg
  | b :: bs, t :: ts =>
    if b = t then relSegs bs ts else List.replicate (bs.length + 1) ".." ++ (t :: ts)
  | _ :: bs, [] => List.replicate (bs.length + 1) ".."
  | [], ts => ts

/-- `strings.HasPrefix rel ("up-one" + separator)` at the segment level: the
joined relative-path string starts with `"../"` exactly when its first
segment is `".."` and at least one further segment follows (segments never
contain the separator, and `Rel` output has no trailing separator). -/
def relHasDotDotSlash (rel : List Seg) : Bool :=
  match rel with
  | a :: _ :: _ => a == ".."
  | _ => false

/-- The decision `insideVault` takes on the relative path from the vault to
the candidate: `"."` (here `[]`) is inside, `".."` is outside, a relative
path beginning with a `"../"` segment is outside, anything else is inside.
This is exactly the chain of returns in src/main.go:807-813. -/
def relInsideTest (rel : List Seg) : Bool :=
  if rel = [] then true
  else if rel = [".."] then false
  else ! relHasDotDotSlash rel

/-- `insideVault` (src/main.go:794-814): resolve both paths, returning
`false` when either resolution fails, then test the relative path from the
vault to the candidate. -/
def insideVault (vault p : GoPath) : Bool :=
  match filepathAbs vault with
  | none => false
  | some absVault =>
    match filepathAbs p with
    | none => false
    | some absPath => relInsideTest (relSegs absVault absPath)

/-- `samePath` (src/main.go:816-826): resolve both paths and compare;
`false` when either resolution fails. -/
def samePath (a b : GoPath) : Bool :=
  match filepathAbs a, filepathAbs b with
  | some aa, some bb => aa == bb
  | _, _ => false

/-- One entry of the persisted registry's `"vaults"` array: either a string
that trims to blank, or a path.  (`strings.TrimSpace` cannot change what a
non-blank path resolves to, so trimming is folded into this
classification.) -/
inductive RawEntry
  | blank
  | path (p : GoPath)
deriving DecidableEq

/-- The registry file (`~/.gono_vaults.json`): absent, unreadable as JSON
(any read failure other than not-exist surfaces as an error in Go and is
modelled the same way), or parsed content. -/
inductive RegFile
  | missing
  | malformed
  | ok (entries : List RawEntry)
deriving DecidableEq

/-- The per-entry step shared by load and save (src/main.go:872-879 and
893-900): trim, skip blanks, resolve with `filepath.Abs`, skip failures.
`none` means the entry is skipped. -/
def canonEntry : RawEntry → Option AbsPath
  | .blank => none
  | .path p => filepathAbs p

/-- The canonicalize-and-deduplicate loop of `loadVaultRegistry`
(src/main.go:870-887) and `saveVaultRegistry` (src/main.go:891-907): the Go
code tracks the seen set in a map whose contents always equal the output
list, so membership is tested on the output directly. -/
def canonDedup (es : List RawEntry) : List AbsPath :=
  es.foldl (fun out e =>
    match canonEntry e with
    | none => out
    | some a => if a ∈ out then out else out ++ [a]) []

/-- `loadVaultRegistry` (src/main.go:856-888): a missing file is an empty
list, unparsable content is a hard error, and entries are trimmed,
resolved and deduplicated keeping the first occurrence. -/
def loadVaultRegistry : RegFile → Except String (List AbsPath)
  | .missing => .ok []
  | .malformed => .error "invalid registry JSON"
  | .ok es => .ok (canonDedup es)

/-- The character list of the joined path string `"/" ++ seg1 ++ "/" ++ ...`
(segments interleaved with the separator). -/
def sepJoin : List (List Char) → List Char
  | [] => []
  | [x] => x
  | x :: xs => x ++ '/' :: sepJoin xs

/-- The full absolute-path string of a segment list, as characters. -/
def pathChars (p : AbsPath) : List Char := '/' :: sepJoin (p.map String.data)

/-- `strings.ToLower` of the joined path string (ASCII range). -/
def lowerKey (p : AbsPath) : List Char := (pathChars p).map Char.toLower

/-- The comparison `saveVaultRegistry` sorts by (src/main.go:908-910):
case-insensitive lexicographic order on the full path strings.  Go's
`sort.Slice` uses the strict form and is unstable; the embedding's
insertion sort agrees with it except for the order of entries whose
lowercased strings tie, which Go leaves unspecified. -/
def regLE (a b : AbsPath) : Prop := lowerKey a ≤ lowerKey b

instance : DecidableRel regLE := fun _ _ => inferInstanceAs (Decidable (_ ≤ _))

instance : IsTotal AbsPath regLE := ⟨fun _ _ => le_total _ _⟩

instance : IsTrans AbsPath regLE := ⟨fun _ _ _ h1 h2 => le_trans h1 h2⟩

/-- `saveVaultRegistry` (src/main.go:890-918): canonicalize, deduplicate,
sort case-insensitively, overwrite the whole file.  (The write itself is
modelled as always succeeding.) -/
def saveVaultRegistry (vaults : List RawEntry) : RegFile :=
  .ok ((List.insertionSort regLE (canonDedup vaults)).map (fun p => RawEntry.path (GoPath.abs p)))

/-- Reference specification of deduplication keeping the first occurrence. -/
def dedupFirst : List AbsPath → List AbsPath
  | [] => []
  | x :: xs => x :: dedupFirst (xs.filter (fun y => y ≠ x))
termination_by l => l.length
decreasing_by
  simp only [List.length_cons]
  exact Nat.lt_succ_of_le (List.length_filter_le _ _)

/-- `strings.TrimSpace` on a character list. -/
def trimChars (l : List Char) : List Char :=
  ((l.dropWhile Char.isWhitespace).reverse.dropWhile Char.isWhitespace).reverse

/-- `strings.TrimSpace`. -/
def trimSpace (s : String) : String := String.mk (trimChars s.data)

def isQuoteChar (c : Char) : Bool := c == '"' || c == '\''

/-- `strings.Trim(s, quote-characters)` used by `openVaultPath`
(src/main.go:686). -/
def trimQuotes (s : String) : String :=
  String.mk (((s.data.dropWhile isQuoteChar).reverse.dropWhile isQuoteChar).reverse)

/-- `isAlnumName` (src/main.go:1018-1025): every rune is a letter or a
digit (vacuously true of the empty string). -/
def isAlnumName (s : String) : Bool := s.data.all (fun r => r.isAlpha || r.isDigit)

/-- The validation-and-naming step of the file-create transition
(src/main.go:357-366): trim the input, reject blank, reject anything not
purely alphanumeric, and append the `".md"` suffix.  `none` is rejection. -/
def fileCreateDecision (input : String) : Option String :=
  let baseName := trimSpace input
  if baseName = "" then none
  else if ¬ isAlnumName baseName then none
  else some (baseName ++ ".md")

/-- `filepath.Base` of an absolute path: last segment, `"/"` at the root. -/
def baseName (p : AbsPath) : Seg := p.getLastD "/"

/-- `filepath.Dir` of an absolute path. -/
def filepathDir (p : AbsPath) : AbsPath := (clean p).dropLast

def splitOnSlashAux : List Char → List Char → List (List Char)
  | [], acc => [acc.reverse]
  | '/' :: rest, acc => acc.reverse :: splitOnSlashAux rest []
  | c :: rest, acc => splitOnSlashAux rest (c :: acc)

/-- Splitting a raw string on the path separator (the resulting segments
may be empty or dot segments; `clean` removes them). -/
def splitSegs (s : String) : List Seg := (splitOnSlashAux s.data []).map String.mk

/-- `filepath.Join(base, name)` for an absolute `base`:
`Clean(base + "/" + name)`. -/
def joinPath (base : AbsPath) (name : String) : AbsPath := clean (base ++ splitSegs name)

/-- The string form of a relative path (`"."` when empty). -/
def relString (rel : List Seg) : String :=
  if rel = [] then "." else String.intercalate "/" rel

/-- `relOrBase` (src/main.go:836-842) for two absolute paths (for which
`filepath.Rel` cannot fail, so the base-name fallback is not taken). -/
def relOrBase (base p : AbsPath) : String := relString (relSegs (clean base) (clean p))

/-- A filesystem node: a file with contents, or a directory.  A directory
carries whether it can be listed (the read permission bit); an unreadable
directory still exists for `stat` purposes, matching POSIX semantics. -/
inductive FSNode
  | file (content : String)
  | dir (readable : Bool)
deriving DecidableEq

def FSNode.isDir : FSNode → Bool
  | .file _ => false
  | .dir _ => true

/-- A filesystem: an association of cleaned absolute paths to nodes.  The
root `[]` is an implicit, always-present, readable directory. -/
abbrev FS := List (AbsPath × FSNode)

def FS.lookup (fs : FS) (p : AbsPath) : Option FSNode :=
  match fs.find? (fun kv => kv.1 == p) with
  | some kv => some kv.2
  | none => none

def FS.existsAt (fs : FS) (p : AbsPath) : Bool :=
  p.isEmpty || (FS.lookup fs p).isSome

def FS.isDirAt (fs : FS) (p : AbsPath) : Bool :=
  p.isEmpty ||
    match FS.lookup fs p with
    | some (.dir _) => true
    | _ => false

/-- Name order on directory entries, as `os.ReadDir` sorts them. -/
def childNameLE (a b : Seg × Bool) : Prop := a.1.data ≤ b.1.data

instance : DecidableRel childNameLE := fun _ _ => inferInstanceAs (Decidable (_ ≤ _))

instance : IsTotal (Seg × Bool) childNameLE := ⟨fun _ _ => le_total _ _⟩

instance : IsTrans (Seg × Bool) childNameLE := ⟨fun _ _ _ h1 h2 => le_trans h1 h2⟩

/-- The children of directory `p`: name and directory flag of every node
one segment below `p`, sorted by name. -/
def FS.children (fs : FS) (p : AbsPath) : List (Seg × Bool) :=
  List.insertionSort childNameLE
    (fs.filterMap (fun kv =>
      if kv.1.length = p.length + 1 ∧ kv.1.take p.length = p then
        some (kv.1.getLastD "", kv.2.isDir)
      else none))

/-- `os.ReadDir`: fails unless `p` is a readable directory. -/
def FS.readDir (fs : FS) (p : AbsPath) : Except String (List (Seg × Bool)) :=
  if p.isEmpty then .ok (FS.children fs p)
  else
    match FS.lookup fs p with
    | some (.dir true) => .ok (FS.children fs p)
    | some (.dir false) => .error "permission denied"
    | some (.file _) => .error "not a directory"
    | none => .error "no such file or directory"

/-- `os.ReadFile`. -/
def FS.readFile (fs : FS) (p : AbsPath) : Except String String :=
  match FS.lookup fs p with
  | some (.file c) => .ok c
  | some (.dir _) => .error "is a directory"
  | none => .error "no such file or directory"

/-- Replace or insert the node at `p`. -/
def FS.setNode (fs : FS) (p : AbsPath) (n : FSNode) : FS :=
  (fs.filter (fun kv => ¬ kv.1 = p)) ++ [(p, n)]

/-- `os.WriteFile`: full overwrite; creating a new file requires an
existing parent directory; a directory at the target is an error. -/
def FS.writeFile (fs : FS) (p : AbsPath) (content : String) : Except String FS :=
  match FS.lookup fs p with
  | some (.dir _) => .error "is a directory"
  | some (.file _) => .ok (FS.setNode fs p (.file content))
  | none =>
    if p.isEmpty then .error "is a directory"
    else if FS.isDirAt fs p.dropLast then .ok (FS.setNode fs p (.file content))
    else .error "no such file or directory"

/-- `os.OpenFile` with `O_CREATE|O_EXCL|O_WRONLY` (src/main.go:372): fails
whenever anything already exists at the path. -/
def FS.openExcl (fs : FS) (p : AbsPath) : Except String FS :=
  if FS.existsAt fs p then .error "file exists"
  else if FS.isDirAt fs p.dropLast then .ok (fs ++ [(p, .file "")])
  else .error "no such file or directory"

/-- `os.Mkdir`: single-level directory creation. -/
def FS.mkdir (fs : FS) (p : AbsPath) : Except String FS :=
  if FS.existsAt fs p then .error "file exists"
  else if FS.isDirAt fs p.dropLast then .ok (fs ++ [(p, .dir true)])
  else .error "no such file or directory"

/-- `os.MkdirAll`: create every missing intermediate directory; succeed
idempotently on existing directories; fail when some stage is a file. -/
def FS.mkdirAll (fs : FS) (p : AbsPath) : Except String FS :=
  (List.range p.length).foldlM (fun acc i =>
    match FS.lookup acc (p.take (i + 1)) with
    | some (.dir _) => Except.ok acc
    | some (.file _) => Except.error "not a directory"
    | none => Except.ok (acc ++ [(p.take (i + 1), FSNode.dir true)])) fs

/-- `os.Remove`: removes a file or an empty directory; fails on a missing
path or a non-empty directory. -/
def FS.remove (fs : FS) (p : AbsPath) : Except String FS :=
  if ¬ FS.existsAt fs p then .error "no such file or directory"
  else if FS.isDirAt fs p ∧ FS.children fs p ≠ [] then .error "directory not empty"
  else .ok (fs.filter (fun kv => ¬ kv.1 = p))

/-- `os.RemoveAll`: removes the path and everything below it (a missing
path is not an error; other failure modes are not modelled). -/
def FS.removeAll (fs : FS) (p : AbsPath) : FS :=
  fs.filter (fun kv => ¬ p.isPrefixOf kv.1)

/-- The world outside the session: the note filesystem and the registry
file. -/
structure World where
  fs : FS
  reg : RegFile
deriving DecidableEq

/-- `registerVault` (src/main.go:920-936): load, return unchanged when an
entry with the same resolved path is present, otherwise append and save. -/
def registerVault (reg : RegFile) (path : AbsPath) : Except String RegFile := do
  let vaults ← loadVaultRegistry reg
  let a := clean path
  if vaults.any (fun v => samePath (.abs v) (.abs a)) then
    return reg
  else
    return saveVaultRegistry ((vaults ++ [a]).map (fun p => RawEntry.path (GoPath.abs p)))

/-- `unregisterVault` (src/main.go:938-956): load, drop every entry with
the same resolved path, save. -/
def unregisterVault (reg : RegFile) (path : AbsPath) : Except String RegFile := do
  let vaults ← loadVaultRegistry reg
  let a := clean path
  return saveVaultRegistry
    ((vaults.filter (fun v => ¬ samePath (.abs v) (.abs a) = true)).map
      (fun p => RawEntry.path (GoPath.abs p)))

/-- The view states (src/main.go:24-33). -/
inductive ViewState
  | vaultSelect
  | vaultCreate
  | vaultOpenPath
  | fileList
  | fileCreate
  | dirCreate
  | editor
  | confirmDelete
deriving DecidableEq

/-- A list row (src/main.go:550-556).  File modification timestamps are
not modelled, so file descriptions are empty. -/
structure Item where
  title : String
  desc : String
  path : AbsPath
  isDir : Bool
  mode : String
deriving DecidableEq

/-- A staged deletion (src/main.go:54-59). -/
structure DeleteTarget where
  path : AbsPath
  label : String
  isDir : Bool
  isVault : Bool
deriving DecidableEq

/-- The core fields of `Model` (src/main.go:35-48).  The widget values the
transitions read — text input, editor buffer, list rows and selection —
are `inputVal`, `taVal`, `items` and `sel`; rendering-only fields are
omitted.  Path fields that Go initializes to `""` are represented by `[]`
and are never read before being assigned. -/
structure Session where
  state : ViewState
  items : List Item
  sel : Nat
  inputVal : String
  taVal : String
  vault : AbsPath
  current : AbsPath
  editing : AbsPath
  lastList : ViewState
  status : String
  pending : Option DeleteTarget
deriving DecidableEq

/-- `list.SelectedItem`: `none` when the list is empty. -/
def selectedItem (s : Session) : Option Item := s.items.get? s.sel

/-- Modelled from the environment: `os.UserHomeDir`, used by
`vaultStorageRoot` (src/main.go:844-850). -/
def vaultStorageRoot : AbsPath := ["home", "user"]

/-- Modelled from the environment: the working directory `filepath.Abs`
resolves relative strings against. -/
def processCwd : AbsPath := ["home", "user"]

/-- `filepath.Abs` on a raw user-typed string. -/
def absOfString (s : String) : AbsPath :=
  if s.data.head? = some '/' then clean (splitSegs s)
  else clean (processCwd ++ splitSegs s)

/-- `strings.ToLower` of a title (ASCII range). -/
def titleKey (s : String) : List Char := s.data.map Char.toLower

/-- Ordering of the vault rows (src/main.go:597-599): case-insensitive by
title.  (`sort.Slice` uses the strict form and is unstable; ties between
equal lowercased titles are left unspecified by Go.) -/
def itemTitleLE (a b : Item) : Prop := titleKey a.title ≤ titleKey b.title

instance : DecidableRel itemTitleLE := fun _ _ => inferInstanceAs (Decidable (_ ≤ _))

instance : IsTotal Item itemTitleLE := ⟨fun _ _ => le_total _ _⟩

instance : IsTrans Item itemTitleLE := ⟨fun _ _ _ h1 h2 => le_trans h1 h2⟩

/-- `getVaults` (src/main.go:570-621): load the registry (degrading to an
empty list on error), keep entries that still resolve to directories,
re-save the filtered list (the self-healing write, whose error Go
discards), sort case-insensitively by title and append the three action
rows.  Returns the rows and the world after the re-save. -/
def getVaults (w : World) : List Item × World :=
  let paths := match loadVaultRegistry w.reg with
    | .ok ps => ps
    | .error _ => []
  let validPaths := paths.filterMap (fun p =>
    if FS.isDirAt w.fs (clean p) then some (clean p) else none)
  let dirs := validPaths.map (fun a => Item.mk (baseName a) "Created vault" a true "")
  let reg2 := saveVaultRegistry (validPaths.map (fun p => RawEntry.path (GoPath.abs p)))
  (List.insertionSort itemTitleLE dirs ++
    [Item.mk "+ Create new vault" "Create a new directory and open it as vault" [] false
       "create-vault",
     Item.mk "+ Open vault by path" "Open any existing directory as vault" [] false
       "open-vault-path",
     Item.mk "+ Open vault in explorer" "Pick an existing directory in a folder dialog" [] false
       "open-vault-explorer"],
   ⟨w.fs, reg2⟩)

/-- Ordering of the file listing (src/main.go:650-655): directories before
files, then case-insensitively by displayed title — for directories the
title carries a trailing separator (src/main.go:640). -/
def entryLE (a b : Item) : Prop :=
  (a.isDir = true ∧ b.isDir = false) ∨ (a.isDir = b.isDir ∧ titleKey a.title ≤ titleKey b.title)

instance : DecidableRel entryLE := fun _ _ => inferInstanceAs (Decidable (_ ∨ _))

instance : IsTotal Item entryLE := by
  constructor
  intro a b
  by_cases ha : a.isDir = true <;> by_cases hb : b.isDir = true
  · rcases le_total (titleKey a.title) (titleKey b.title) with h | h
    · exact Or.inl (Or.inr ⟨ha.trans hb.symm, h⟩)
    · exact Or.inr (Or.inr ⟨hb.trans ha.symm, h⟩)
  · exact Or.inl (Or.inl ⟨ha, Bool.not_eq_true _ ▸ hb⟩)
  · exact Or.inr (Or.inl ⟨hb, Bool.not_eq_true _ ▸ ha⟩)
  · rcases le_total (titleKey a.title) (titleKey b.title) with h | h
    · exact Or.inl (Or.inr ⟨(Bool.not_eq_true _ ▸ ha).trans (Bool.not_eq_true _ ▸ hb).symm, h⟩)
    · exact Or.inr (Or.inr ⟨(Bool.not_eq_true _ ▸ hb).trans (Bool.not_eq_true _ ▸ ha).symm, h⟩)

instance : IsTrans Item entryLE := by
  constructor
  intro a b c hab hbc
  rcases hab with ⟨ha, hb⟩ | ⟨hab, hle1⟩
  · rcases hbc with ⟨hb2, _⟩ | ⟨hbc, _⟩
    · rw [hb] at hb2
      exact absurd hb2 (by simp)
    · exact Or.inl ⟨ha, hbc ▸ hb⟩
  · rcases hbc with ⟨hb2, hc⟩ | ⟨hbc, hle2⟩
    · exact Or.inl ⟨hab.trans hb2, hc⟩
    · exact Or.inr ⟨hab.trans hbc, le_trans hle1 hle2⟩

/-- The row built for one directory entry (src/main.go:631-647). -/
def entryItem (current : AbsPath) (e : Seg × Bool) : Item :=
  if e.2 then Item.mk (e.1 ++ "/") "Directory" (joinPath current e.1) true ""
  else Item.mk e.1 "" (joinPath current e.1) false ""

/-- The synthetic parent row (src/main.go:658-665). -/
def upItem (current : AbsPath) : Item :=
  Item.mk ".." "Go to parent directory" (filepathDir current) true "up"

/-- `refreshFileList` (src/main.go:623-674): list the current directory —
an error only sets the status and leaves the rows stale — then sort
directories-first / case-insensitive-by-title and prepend the parent row
unless the current directory is the vault root. -/
def refreshFileList (s : Session) (w : World) : Session :=
  match FS.readDir w.fs s.current with
  | .error e => { s with status := "Error: " ++ e }
  | .ok files =>
    let sorted := List.insertionSort entryLE (files.map (entryItem s.current))
    { s with items :=
        (if samePath (.abs s.current) (.abs s.vault) then [] else [upItem s.current]) ++ sorted }

/-- `enterPrompt` (src/main.go:676-683). -/
def enterPrompt (s : Session) (st : ViewState) : Session :=
  { s with lastList := s.state, state := st, inputVal := "" }

/-- `goParent` (src/main.go:774-784). -/
def goParent (s : Session) (w : World) : Session :=
  if samePath (.abs s.current) (.abs s.vault) then s
  else
    let parent := filepathDir s.current
    if insideVault (.abs s.vault) (.abs parent) then
      refreshFileList { s with current := parent } w
    else s

/-- `safePath` (src/main.go:786-792). -/
def safePath (s : Session) (name : String) : Except String AbsPath :=
  let target := joinPath s.current name
  if insideVault (.abs s.vault) (.abs target) then .ok target
  else .error "path escapes vault"

/-- `openVaultPath` (src/main.go:685-712). -/
def openVaultPath (s : Session) (w : World) (rawPath : String) : Session :=
  let cleanPath := trimQuotes (trimSpace rawPath)
  if cleanPath = "" then { s with status := "Vault path cannot be empty" }
  else
    let a := absOfString cleanPath
    if ¬ FS.existsAt w.fs a then { s with status := "Error: cannot access this path" }
    else if ¬ FS.isDirAt w.fs a then { s with status := "Error: path must point to a directory" }
    else
      refreshFileList
        { s with
          vault := a
          current := a
          state := .fileList
          status := "Vault selected: " ++ baseName a } w

/-- The save branch of the editor (src/main.go:173-182). -/
def editorSave (s : Session) (w : World) : Session × World :=
  match FS.writeFile w.fs s.editing s.taVal with
  | .error e => ({ s with status := "Error: " ++ e }, w)
  | .ok fs2 => ({ s with status := "Saved: " ++ relOrBase s.vault s.editing }, ⟨fs2, w.reg⟩)

/-- The deletion `confirmDelete` performs (src/main.go:966-970). -/
def deleteOp (fs : FS) (t : DeleteTarget) : Except String FS :=
  if t.isDir then .ok (FS.removeAll fs t.path) else FS.remove fs t.path

/-- `confirmDelete` (src/main.go:958-994). -/
def confirmDelete (s : Session) (w : World) : Session × World :=
  match s.pending with
  | none => ({ s with state := s.lastList }, w)
  | some t =>
    match deleteOp w.fs t with
    | .error e =>
      ({ s with
          status := "Error: " ++ e
          pending := none
          state := s.lastList }, w)
    | .ok fs2 =>
      if t.isVault then
        let str2 :=
          match unregisterVault w.reg t.path with
          | .error e => ("Vault deleted, but registry update failed: " ++ e, w.reg)
          | .ok r => ("Vault deleted: " ++ t.label, r)
        let rw2 := getVaults ⟨fs2, str2.2⟩
        ({ s with
            status := str2.1
            items := rw2.1
            pending := none
            state := s.lastList }, rw2.2)
      else
        let s2 := refreshFileList { s with status := "Deleted: " ++ t.label } ⟨fs2, w.reg⟩
        ({ s2 with pending := none, state := s.lastList }, ⟨fs2, w.reg⟩)

/-- `handleEnter` (src/main.go:278-404). -/
def handleEnter (s : Session) (w : World) : Session × World :=
  match s.state with
  | .vaultSelect =>
    match selectedItem s with
    | none => (s, w)
    | some it =>
      if it.mode = "create-vault" then (enterPrompt s .vaultCreate, w)
      else if it.mode = "open-vault-path" then (enterPrompt s .vaultOpenPath, w)
      else if it.mode = "open-vault-explorer" then
        ({ s with status := "Error: folder picker is not implemented for linux" }, w)
      else
        (refreshFileList
          { s with
            vault := it.path
            current := it.path
            state := .fileList
            status := "Vault selected: " ++ baseName it.path } w, w)
  | .fileList =>
    match selectedItem s with
    | none => (s, w)
    | some it =>
      if it.mode = "up" then (goParent s w, w)
      else if it.isDir then (refreshFileList { s with current := it.path } w, w)
      else
        match FS.readFile w.fs it.path with
        | .error e => ({ s with status := "Error: " ++ e }, w)
        | .ok content =>
          ({ s with editing := it.path, taVal := content, state := .editor }, w)
  | .vaultCreate =>
    let name := trimSpace s.inputVal
    if name = "" then ({ s with status := "Vault name cannot be empty" }, w)
    else
      let path := joinPath vaultStorageRoot name
      match FS.mkdir w.fs path with
      | .error e => ({ s with status := "Error: " ++ e }, w)
      | .ok fs2 =>
        match registerVault w.reg path with
        | .error e =>
          ({ s with status := "Vault created, but registry update failed: " ++ e },
            ⟨fs2, w.reg⟩)
        | .ok reg2 =>
          (refreshFileList
            { s with
              vault := path
              current := path
              state := .fileList
              status := "Vault created: " ++ baseName path } ⟨fs2, reg2⟩, ⟨fs2, reg2⟩)
  | .vaultOpenPath => (openVaultPath s w s.inputVal, w)
  | .fileCreate =>
    let baseN := trimSpace s.inputVal
    if baseN = "" then ({ s with status := "File name cannot be empty" }, w)
    else if ¬ isAlnumName baseN then
      ({ s with status := "Invalid file name: use only letters and digits" }, w)
    else
      match safePath s (baseN ++ ".md") with
      | .error e => ({ s with status := "Error: " ++ e }, w)
      | .ok target =>
        match FS.openExcl w.fs target with
        | .error e => ({ s with status := "Error: " ++ e }, w)
        | .ok fs2 =>
          (refreshFileList
            { s with
              state := .fileList
              status := "File created: " ++ relOrBase s.vault target } ⟨fs2, w.reg⟩,
            ⟨fs2, w.reg⟩)
  | .dirCreate =>
    let name := trimSpace s.inputVal
    if name = "" then ({ s with status := "Directory name cannot be empty" }, w)
    else
      match safePath s name with
      | .error e => ({ s with status := "Error: " ++ e }, w)
      | .ok target =>
        match FS.mkdirAll w.fs target with
        | .error e => ({ s with status := "Error: " ++ e }, w)
        | .ok fs2 =>
          (refreshFileList
            { s with
              state := .fileList
              status := "Directory created: " ++ relOrBase s.vault target } ⟨fs2, w.reg⟩,
            ⟨fs2, w.reg⟩)
  | _ => (s, w)

/-- A user intent: the key messages `Update` distinguishes, plus intents
modelling interaction with the embedded widgets (typing into the text
input or the editor, moving the list selection), to which Go routes all
other key messages. -/
inductive Intent
  | keyEnter
  | keyEsc
  | keyN
  | keyY
  | keyCtrlS
  | keyCtrlN
  | keyCtrlO
  | keyCtrlP
  | keyCtrlD
  | keyCtrlX
  | keyBackspace
  | setInput (v : String)
  | setTextarea (v : String)
  | select (i : Nat)

/-- `Update` (src/main.go:141-276), restricted to the core state (the
folder picker runs on a non-Windows host, where it reports that it is not
implemented). -/
def step (s : Session) (w : World) : Intent → Session × World
  | .setInput v =>
    match s.state with
    | .vaultCreate | .vaultOpenPath | .fileCreate | .dirCreate => ({ s with inputVal := v }, w)
    | _ => (s, w)
  | .setTextarea v =>
    match s.state with
    | .editor => ({ s with taVal := v }, w)
    | _ => (s, w)
  | .select i =>
    match s.state with
    | .vaultSelect | .fileList => ({ s with sel := i }, w)
    | _ => (s, w)
  | .keyEsc =>
    match s.state with
    | .editor => (refreshFileList { s with state := .fileList } w, w)
    | .vaultCreate | .vaultOpenPath | .fileCreate | .dirCreate | .confirmDelete =>
      ({ s with state := s.lastList, pending := none }, w)
    | _ => (s, w)
  | .keyN =>
    if s.state = .confirmDelete then ({ s with state := s.lastList, pending := none }, w)
    else (s, w)
  | .keyY => if s.state = .confirmDelete then confirmDelete s w else (s, w)
  | .keyCtrlS => if s.state = .editor then editorSave s w else (s, w)
  | .keyCtrlN =>
    match s.state with
    | .vaultSelect => (enterPrompt s .vaultCreate, w)
    | .fileList => (enterPrompt s .fileCreate, w)
    | _ => (s, w)
  | .keyCtrlO =>
    if s.state = .vaultSelect then (enterPrompt s .vaultOpenPath, w) else (s, w)
  | .keyCtrlP =>
    if s.state = .vaultSelect then
      ({ s with status := "Error: folder picker is not implemented for linux" }, w)
    else (s, w)
  | .keyCtrlD =>
    if s.state = .fileList then (enterPrompt s .dirCreate, w) else (s, w)
  | .keyCtrlX =>
    match s.state with
    | .vaultSelect =>
      match selectedItem s with
      | none => (s, w)
      | some it =>
        if it.mode ≠ "" then (s, w)
        else
          ({ s with
             pending := some ⟨it.path, baseName it.path, true, true⟩
             lastList := .vaultSelect
             state := .confirmDelete }, w)
    | .fileList =>
      match selectedItem s with
      | none => (s, w)
      | some it =>
        if it.mode = "up" then (s, w)
        else
          ({ s with
             pending := some ⟨it.path, relOrBase s.vault it.path, it.isDir, false⟩
             lastList := .fileList
             state := .confirmDelete }, w)
    | _ => (s, w)
  | .keyBackspace =>
    if s.state = .fileList then (goParent s w, w) else (s, w)
  | .keyEnter =>
    if s.state = .confirmDelete then confirmDelete s w else handleEnter s w

/-- `initialModel` (src/main.go:82-135): build the vault rows (which may
re-save the registry) and start in the vault-select state. -/
def initSession (w : World) : Session × World :=
  let rw := getVaults w
  (⟨.vaultSelect, rw.1, 0, "", "", [], [], [], .vaultSelect, "", none⟩, rw.2)

/-- A session sitting on the delete-confirmation screen for a file that is
no longer on disk, so the deletion will fail. -/
def failDeleteSession : Session :=
  ⟨.confirmDelete, [], 0, "", "", ["v"], ["v"], [], .fileList, "old",
    some ⟨["v", "gone.md"], "gone.md", false, false⟩⟩

def failDeleteWorld : World := ⟨[(["v"], FSNode.dir true)], .missing⟩

/-- A session confirming deletion of the vault root `/v/A`. -/
def c6Session : Session :=
  ⟨.confirmDelete, [], 0, "", "", [], [], [], .vaultSelect, "",
    some ⟨["v", "A"], "A", true, true⟩⟩

def c6World : World :=
  ⟨[(["v"], .dir true), (["v", "A"], .dir true), (["v", "A", "n.md"], .file "x"),
    (["v", "B"], .dir true)],
   .ok [.path (.abs ["v", "A"]), .path (.abs ["v", "B"])]⟩

def c9Session : Session := ⟨.fileList, [], 0, "", "", ["v"], ["v"], [], .fileList, "", none⟩

def c9World : World :=
  ⟨[(["v"], .dir true), (["v", "a"], .dir true), (["v", "a.b"], .dir true)], .missing⟩

def c9wSession : Session := ⟨.fileList, [], 0, "", "", ["v"], ["v"], [], .fileList, "", none⟩

def c9wWorld : World :=
  ⟨[(["v"], .dir true), (["v", "note.md"], .file "x"), (["v", "sub"], .dir true)], .missing⟩

/-- Two registered vaults: `/data/VaultA` exists but cannot be listed
(stat succeeds, reading fails with permission denied), `/data/VaultB` is a
normal vault holding one note. -/
def c2World : World :=
  ⟨[(["data"], .dir true), (["data", "VaultA"], .dir false), (["data", "VaultB"], .dir true),
    (["data", "VaultB", "note.md"], .file "hi")],
   .ok [.path (.abs ["data", "VaultA"]), .path (.abs ["data", "VaultB"])]⟩

/-! ### Theorems -/

theorem mem_foldl_cleanStep (segs : List Seg) (acc : List Seg)
    (h : ∀ x ∈ acc, goodSeg x) : ∀ x ∈ segs.foldl cleanStep acc, goodSeg x := by
  induction segs generalizing acc with
  | nil => simpa using h
  | cons s rest ih =>
    intro x hx
    rw [List.foldl_cons] at hx
    refine ih _ ?_ x hx
    intro y hy
    unfold cleanStep at hy
    split at hy
    · exact h y hy
    · split at hy
      · exact h y (List.dropLast_subset _ hy)
      · rcases List.mem_append.mp hy with h1 | h2
        · exact h y h1
        · rename_i hne1 hne2
          rcases List.mem_singleton.mp h2 with rfl
          exact ⟨fun hc => hne1 (Or.inl hc), fun hc => hne1 (Or.inr hc), hne2⟩

/-- Every segment of a cleaned path is irreducible. -/
theorem mem_clean_goodSeg (segs : List Seg) : ∀ x ∈ clean segs, goodSeg x :=
  mem_foldl_cleanStep segs [] (by simp)

theorem foldl_cleanStep_of_good (segs : List Seg) (acc : List Seg)
    (h : ∀ x ∈ segs, goodSeg x) : segs.foldl cleanStep acc = acc ++ segs := by
  induction segs generalizing acc with
  | nil => simp
  | cons s rest ih =>
    have hs := h s (List.mem_cons_self _ _)
    have hstep : cleanStep acc s = acc ++ [s] := by
      unfold cleanStep
      rw [if_neg, if_neg hs.2.2]
      rintro (h1 | h2)
      · exact hs.1 h1
      · exact hs.2.1 h2
    rw [List.foldl_cons, hstep, ih _ (fun x hx => h x (List.mem_cons_of_mem _ hx))]
    simp

/-- Cleaning a path of irreducible segments changes nothing. -/
theorem clean_of_good (segs : List Seg) (h : ∀ x ∈ segs, goodSeg x) :
    clean segs = segs :=
  (foldl_cleanStep_of_good segs [] h).trans (by simp)

/-- `clean` is idempotent. -/
theorem clean_clean (segs : List Seg) : clean (clean segs) = clean segs :=
  clean_of_good _ (mem_clean_goodSeg segs)

/-- Relative-path decision versus segment-list containment: provided the
target has no `".."` segment (true of every cleaned path), the test accepts
exactly when the base's segments are a leading run of the target's. -/
theorem relInsideTest_iff (bs ts : List Seg) (hts : ".." ∉ ts) :
    relInsideTest (relSegs bs ts) = true ↔ bs <+: ts := by
  induction bs generalizing ts with
  | nil =>
    cases ts with
    | nil => simp [relSegs, relInsideTest]
    | cons t ts' =>
      have ht : t ≠ ".." := fun h => hts (h ▸ List.mem_cons_self _ _)
      simp [relSegs, relInsideTest, relHasDotDotSlash]
      cases ts' with
      | nil => simp [ht]
      | cons u us => simp [ht]
  | cons b bs ih =>
    cases ts with
    | nil =>
      cases bs with
      | nil => simp [relSegs, relInsideTest]
      | cons b' bs' => simp [relSegs, relInsideTest, relHasDotDotSlash, List.replicate_succ]
    | cons t ts' =>
      by_cases hbt : b = t
      · subst hbt
        rw [show relSegs (b :: bs) (b :: ts') = relSegs bs ts' by simp [relSegs]]
        rw [ih ts' (fun hmem => hts (List.mem_cons_of_mem _ hmem))]
        exact (List.cons_prefix_cons.trans (by simp)).symm
      · have hrel : relSegs (b :: bs) (t :: ts') =
            ".." :: (List.replicate bs.length ".." ++ (t :: ts')) := by
          simp [relSegs, hbt, List.replicate_succ]
        rw [hrel]
        have hfalse : relInsideTest (".." :: (List.replicate bs.length ".." ++ (t :: ts'))) = false := by
          unfold relInsideTest relHasDotDotSlash
          cases hx : List.replicate bs.length ".." ++ (t :: ts') with
          | nil => simp at hx
          | cons y ys => simp
        rw [hfalse]
        simp [List.cons_prefix_cons, hbt]

/-- C1: for every root path `r` and candidate `p`, when both resolve,
`insideVault r p` is `true` exactly when the resolved root's segments lead
the resolved candidate's (covering `p = r` and every strict descendant, and
excluding every ancestor and every sibling that merely shares a string
prefix, such as root `/v/Notes` against `/v/NotesArchive`); when either
resolution fails the check returns `false` rather than raising. -/
theorem C1_insideVault_containment (r p : GoPath) :
    (∀ rs ps, filepathAbs r = some rs → filepathAbs p = some ps →
      ((rs <+: ps → insideVault r p = true) ∧ (¬ rs <+: ps → insideVault r p = false)))
    ∧ ((filepathAbs r = none ∨ filepathAbs p = none) → insideVault r p = false) := by
  constructor
  · intro rs ps hr hp
    have key : insideVault r p = relInsideTest (relSegs rs ps) := by
      unfold insideVault
      rw [hr, hp]
    have hts : ".." ∉ ps := by
      cases p with
      | abs segs =>
        simp only [filepathAbs, Option.some.injEq] at hp
        intro hmem
        exact (mem_clean_goodSeg segs ".." (hp ▸ hmem)).2.2 rfl
      | unresolvable => simp [filepathAbs] at hp
    constructor
    · intro hpre
      rw [key]
      exact (relInsideTest_iff rs ps hts).mpr hpre
    · intro hnpre
      rw [key]
      cases hb : relInsideTest (relSegs rs ps)
      · rfl
      · exact absurd ((relInsideTest_iff rs ps hts).mp hb) hnpre
  · rintro (hn | hn)
    · unfold insideVault
      rw [hn]
    · unfold insideVault
      rw [hn]
      cases filepathAbs r <;> rfl

/-- Witness for C1 at concrete paths: the root itself, a strict descendant,
an ancestor, the prefix-sharing sibling from the claim, and a failed
resolution. -/
theorem C1_witness :
    insideVault (GoPath.abs ["v", "Notes"]) (GoPath.abs ["v", "Notes"]) = true ∧
    insideVault (GoPath.abs ["v", "Notes"]) (GoPath.abs ["v", "Notes", "a", "b"]) = true ∧
    insideVault (GoPath.abs ["v", "Notes"]) (GoPath.abs ["v"]) = false ∧
    insideVault (GoPath.abs ["v", "Notes"]) (GoPath.abs ["v", "NotesArchive"]) = false ∧
    insideVault GoPath.unresolvable (GoPath.abs ["v"]) = false :=
  ⟨((C1_insideVault_containment (GoPath.abs ["v", "Notes"]) (GoPath.abs ["v", "Notes"])).1
      ["v", "Notes"] ["v", "Notes"] rfl rfl).1 (by decide),
   ((C1_insideVault_containment (GoPath.abs ["v", "Notes"]) (GoPath.abs ["v", "Notes", "a", "b"])).1
      ["v", "Notes"] ["v", "Notes", "a", "b"] rfl rfl).1 (by decide),
   ((C1_insideVault_containment (GoPath.abs ["v", "Notes"]) (GoPath.abs ["v"])).1
      ["v", "Notes"] ["v"] rfl rfl).2 (by decide),
   ((C1_insideVault_containment (GoPath.abs ["v", "Notes"]) (GoPath.abs ["v", "NotesArchive"])).1
      ["v", "Notes"] ["v", "NotesArchive"] rfl rfl).2 (by decide),
   (C1_insideVault_containment GoPath.unresolvable (GoPath.abs ["v"])).2 (Or.inl rfl)⟩

theorem dedupFirst_nil : dedupFirst [] = [] := by
  simp [dedupFirst]

theorem dedupFirst_cons (x : AbsPath) (xs : List AbsPath) :
    dedupFirst (x :: xs) = x :: dedupFirst (xs.filter (fun y => y ≠ x)) := by
  simp [dedupFirst]

theorem foldl_dedup_eq (cs : List AbsPath) (out : List AbsPath) :
    cs.foldl (fun out c => if c ∈ out then out else out ++ [c]) out =
      out ++ dedupFirst (cs.filter (fun c => c ∉ out)) := by
  induction cs generalizing out with
  | nil => simp [dedupFirst_nil]
  | cons c cs ih =>
    by_cases hc : c ∈ out
    · simp only [List.foldl_cons, if_pos hc]
      rw [ih out]
      congr 2
      simp [List.filter_cons, hc]
    · simp only [List.foldl_cons, if_neg hc]
      rw [ih (out ++ [c])]
      have hfilter : cs.filter (fun y => y ∉ out ++ [c]) =
          (cs.filter (fun y => y ∉ out)).filter (fun y => y ≠ c) := by
        rw [List.filter_filter]
        apply List.filter_congr
        intro a _
        by_cases h1 : a = c <;> by_cases h2 : a ∈ out <;> simp [h1, h2]
      have hcons : (c :: cs).filter (fun y => y ∉ out) =
          c :: cs.filter (fun y => y ∉ out) := by
        simp [List.filter_cons, hc]
      rw [hcons, hfilter, dedupFirst_cons]
      simp

theorem canonDedup_eq_foldl (es : List RawEntry) :
    canonDedup es =
      (es.filterMap canonEntry).foldl (fun out c => if c ∈ out then out else out ++ [c]) [] := by
  suffices h : ∀ out, es.foldl (fun out e =>
      match canonEntry e with
      | none => out
      | some a => if a ∈ out then out else out ++ [a]) out =
      (es.filterMap canonEntry).foldl (fun out c => if c ∈ out then out else out ++ [c]) out from
    h []
  induction es with
  | nil => intro out; rfl
  | cons e es ih =>
    intro out
    cases he : canonEntry e with
    | none => simp [List.filterMap_cons, he, ih]
    | some a => simp [List.filterMap_cons, he, ih]

/-- The implementation's fold-with-seen-set equals first-occurrence
deduplication of the canonicalized entries. -/
theorem canonDedup_eq_dedupFirst (es : List RawEntry) :
    canonDedup es = dedupFirst (es.filterMap canonEntry) := by
  rw [canonDedup_eq_foldl, foldl_dedup_eq]
  simp

theorem mem_dedupFirst (a : AbsPath) :
    ∀ (n : Nat) (l : List AbsPath), l.length ≤ n → (a ∈ dedupFirst l ↔ a ∈ l) := by
  intro n
  induction n with
  | zero =>
    intro l hl
    rw [Nat.le_zero, List.length_eq_zero] at hl
    subst hl
    rw [dedupFirst_nil]
  | succ n ih =>
    intro l hl
    cases l with
    | nil => rw [dedupFirst_nil]
    | cons x xs =>
      rw [dedupFirst_cons]
      simp only [List.mem_cons]
      rw [ih (xs.filter (fun y => y ≠ x))
        (le_trans (List.length_filter_le _ _) (Nat.succ_le_succ_iff.mp hl))]
      constructor
      · rintro (rfl | hmem)
        · exact Or.inl rfl
        · exact Or.inr (List.mem_filter.mp hmem).1
      · rintro (rfl | hmem)
        · exact Or.inl rfl
        · by_cases hax : a = x
          · exact Or.inl hax
          · exact Or.inr (List.mem_filter.mpr ⟨hmem, by simp [hax]⟩)

theorem mem_dedupFirst_iff (a : AbsPath) (l : List AbsPath) :
    a ∈ dedupFirst l ↔ a ∈ l :=
  mem_dedupFirst a l.length l le_rfl

theorem nodup_dedupFirst : ∀ (n : Nat) (l : List AbsPath), l.length ≤ n → (dedupFirst l).Nodup := by
  intro n
  induction n with
  | zero =>
    intro l hl
    rw [Nat.le_zero, List.length_eq_zero] at hl
    subst hl
    rw [dedupFirst_nil]
    exact List.nodup_nil
  | succ n ih =>
    intro l hl
    cases l with
    | nil =>
      rw [dedupFirst_nil]
      exact List.nodup_nil
    | cons x xs =>
      rw [dedupFirst_cons]
      have hle : (xs.filter (fun y => y ≠ x)).length ≤ n :=
        le_trans (List.length_filter_le _ _) (Nat.succ_le_succ_iff.mp hl)
      refine List.Nodup.cons ?_ (ih _ hle)
      intro hmem
      have := (List.mem_filter.mp ((mem_dedupFirst_iff x _).mp hmem)).2
      simp at this

theorem nodup_dedupFirst_iff (l : List AbsPath) : (dedupFirst l).Nodup :=
  nodup_dedupFirst l.length l le_rfl

theorem dedupFirst_of_nodup : ∀ (l : List AbsPath), l.Nodup → dedupFirst l = l := by
  intro l
  induction l with
  | nil => intro; rw [dedupFirst_nil]
  | cons x xs ih =>
    intro hnd
    rw [dedupFirst_cons]
    have hx : x ∉ xs := (List.nodup_cons.mp hnd).1
    have hself : xs.filter (fun y => y ≠ x) = xs := by
      apply List.filter_eq_self.mpr
      intro a ha
      simp only [decide_eq_true_eq]
      intro hax
      exact hx (hax ▸ ha)
    rw [hself, ih (List.nodup_cons.mp hnd).2]

theorem mem_canonDedup (es : List RawEntry) (c : AbsPath) :
    c ∈ canonDedup es ↔ ∃ e ∈ es, canonEntry e = some c := by
  rw [canonDedup_eq_dedupFirst, mem_dedupFirst_iff, List.mem_filterMap]

theorem canonEntry_clean (e : RawEntry) (c : AbsPath) (h : canonEntry e = some c) :
    clean c = c := by
  cases e with
  | blank => simp [canonEntry] at h
  | path p =>
    cases p with
    | abs segs =>
      simp only [canonEntry, filepathAbs, Option.some.injEq] at h
      rw [← h, clean_clean]
    | unresolvable => simp [canonEntry, filepathAbs] at h

theorem canonDedup_cleaned (es : List RawEntry) (c : AbsPath) (h : c ∈ canonDedup es) :
    clean c = c := by
  rcases (mem_canonDedup es c).mp h with ⟨e, _, he⟩
  exact canonEntry_clean e c he

theorem nodup_canonDedup (es : List RawEntry) : (canonDedup es).Nodup := by
  rw [canonDedup_eq_dedupFirst]
  exact nodup_dedupFirst_iff _

/-- Re-loading a list that is already canonical and duplicate-free gives it
back unchanged. -/
theorem canonDedup_map_path (l : List AbsPath) (hclean : ∀ c ∈ l, clean c = c)
    (hnodup : l.Nodup) :
    canonDedup (l.map (fun p => RawEntry.path (GoPath.abs p))) = l := by
  rw [canonDedup_eq_dedupFirst, List.filterMap_map]
  have hmap : (l.filterMap (canonEntry ∘ fun p => RawEntry.path (GoPath.abs p))) = l.map clean := by
    rw [show (canonEntry ∘ fun p => RawEntry.path (GoPath.abs p)) = some ∘ clean from rfl]
    rw [List.filterMap_eq_map]
  rw [hmap]
  have hid : ∀ (m : List AbsPath), (∀ c ∈ m, clean c = c) → m.map clean = m := by
    intro m
    induction m with
    | nil => intro; rfl
    | cons x xs ih =>
      intro hm
      rw [List.map_cons, hm x (List.mem_cons_self _ _),
        ih (fun c hc => hm c (List.mem_cons_of_mem _ hc))]
  rw [hid l hclean]
  exact dedupFirst_of_nodup l hnodup

/-- Saving and re-loading yields exactly the sorted, deduplicated,
canonicalized snapshot. -/
theorem load_save (X : List RawEntry) :
    loadVaultRegistry (saveVaultRegistry X) =
      .ok (List.insertionSort regLE (canonDedup X)) := by
  simp only [saveVaultRegistry, loadVaultRegistry, Except.ok.injEq]
  apply canonDedup_map_path
  · intro c hc
    exact canonDedup_cleaned X c ((List.perm_insertionSort regLE _).mem_iff.mp hc)
  · exact ((List.perm_insertionSort regLE _).nodup_iff).mpr (nodup_canonDedup X)

/-- C5: for every list of registry entries `X`, `load (save X)` succeeds and
yields `X` canonicalized, deduplicated (by canonical form) and sorted
case-insensitively; its members are exactly the canonical forms of the
members of `X`, and saving and re-loading that result reproduces it
unchanged (idempotence). -/
theorem C5_registry_save_load (X : List RawEntry) :
    ∃ out, loadVaultRegistry (saveVaultRegistry X) = .ok out ∧
      out.Sorted regLE ∧ out.Nodup ∧
      (∀ c, c ∈ out ↔ ∃ e ∈ X, canonEntry e = some c) ∧
      loadVaultRegistry (saveVaultRegistry (out.map (fun p => RawEntry.path (GoPath.abs p)))) =
        .ok out := by
  refine ⟨List.insertionSort regLE (canonDedup X), load_save X,
    List.sorted_insertionSort regLE _,
    ((List.perm_insertionSort regLE _).nodup_iff).mpr (nodup_canonDedup X),
    fun c => ?_, ?_⟩
  · rw [(List.perm_insertionSort regLE _).mem_iff]
    exact mem_canonDedup X c
  · rw [load_save]
    congr 1
    have hclean : ∀ c ∈ List.insertionSort regLE (canonDedup X), clean c = c := fun c hc =>
      canonDedup_cleaned X c ((List.perm_insertionSort regLE _).mem_iff.mp hc)
    have hnodup : (List.insertionSort regLE (canonDedup X)).Nodup :=
      ((List.perm_insertionSort regLE _).nodup_iff).mpr (nodup_canonDedup X)
    rw [canonDedup_map_path _ hclean hnodup]
    exact ((List.sorted_insertionSort regLE (canonDedup X)).insertionSort_eq)

/-- C8: registry load semantics — a missing file yields the empty list (not
an error), malformed content is a hard read error, and the loaded list is
the canonicalization of the stored entries with blanks dropped and
duplicates collapsed keeping the first occurrence; the result is
duplicate-free and every member is the canonical form of some stored
entry. -/
theorem C8_load_registry (es : List RawEntry) :
    loadVaultRegistry RegFile.missing = .ok [] ∧
    loadVaultRegistry RegFile.malformed = .error "invalid registry JSON" ∧
    loadVaultRegistry (RegFile.ok es) = .ok (dedupFirst (es.filterMap canonEntry)) ∧
    (dedupFirst (es.filterMap canonEntry)).Nodup ∧
    (∀ c, c ∈ dedupFirst (es.filterMap canonEntry) →
      (∃ e ∈ es, canonEntry e = some c) ∧ clean c = c) := by
  refine ⟨rfl, rfl, ?_, nodup_dedupFirst_iff _, fun c hc => ?_⟩
  · simp only [loadVaultRegistry, Except.ok.injEq]
    exact canonDedup_eq_dedupFirst es
  · have hmem := (mem_dedupFirst_iff c _).mp hc
    rcases List.mem_filterMap.mp hmem with ⟨e, he, hec⟩
    exact ⟨⟨e, he, hec⟩, canonEntry_clean e c hec⟩

/-- Witness for C8 at a concrete registry content: a blank entry, an
uncleaned path, an unresolvable path and a duplicate. -/
theorem C8_witness :
    (∃ e ∈ [RawEntry.blank, RawEntry.path (GoPath.abs ["b", "", "c", ".."]),
        RawEntry.path GoPath.unresolvable, RawEntry.path (GoPath.abs ["a"]),
        RawEntry.path (GoPath.abs ["a"])], canonEntry e = some ["b"]) ∧
      clean ["b"] = ["b"] :=
  (C8_load_registry [RawEntry.blank, RawEntry.path (GoPath.abs ["b", "", "c", ".."]),
      RawEntry.path GoPath.unresolvable, RawEntry.path (GoPath.abs ["a"]),
      RawEntry.path (GoPath.abs ["a"])]).2.2.2.2 ["b"]
    (by rw [← canonDedup_eq_dedupFirst]; decide)

theorem refreshFileList_state (s : Session) (w : World) :
    (refreshFileList s w).state = s.state := by
  unfold refreshFileList
  split <;> rfl

theorem append_ne_empty (a b : String) (h : a.data ≠ []) : a ++ b ≠ "" := by
  intro hc
  have hdata : a.data ++ b.data = [] := congrArg String.data hc
  exact h (List.append_eq_nil.mp hdata).1

/-- C10: processing a delete confirmation while no target is staged
performs no filesystem or registry mutation and only returns the session
to the previous list state, leaving the status message untouched. -/
theorem C10_confirm_without_pending (s : Session) (w : World) (h : s.pending = none) :
    confirmDelete s w = ({ s with state := s.lastList }, w) := by
  unfold confirmDelete
  rw [h]

/-- Witness for C10 at a concrete session. -/
theorem C10_witness :
    confirmDelete
        ⟨.confirmDelete, [], 0, "", "", ["v"], ["v"], [], .fileList, "old status", none⟩
        ⟨[(["v"], FSNode.dir true)], .missing⟩ =
      (⟨.fileList, [], 0, "", "", ["v"], ["v"], [], .fileList, "old status", none⟩,
        ⟨[(["v"], FSNode.dir true)], .missing⟩) :=
  C10_confirm_without_pending _ _ rfl

theorem fileCreateDecision_some_spec (input out : String)
    (h : fileCreateDecision input = some out) :
    trimSpace input ≠ "" ∧ isAlnumName (trimSpace input) = true ∧
    out = trimSpace input ++ ".md" := by
  unfold fileCreateDecision at h
  by_cases h1 : trimSpace input = "" <;> by_cases h2 : isAlnumName (trimSpace input) <;>
    simp [h1, h2] at h ⊢
  exact h.symm

/-- C7 counterexample: the submitted name `" Note1"` is non-blank but not
solely alphanumeric (it contains a space), yet the file-create transition
accepts it, because the input is whitespace-trimmed before validation; so
"accepts a name iff it is non-blank and solely alphanumeric" fails for the
submitted name. -/
theorem C7_counterexample :
    fileCreateDecision " Note1" = some "Note1.md" ∧
    isAlnumName " Note1" = false ∧ (" Note1" : String) ≠ "" := by
  refine ⟨by decide, by decide, by decide⟩

/-- C7 amended: the file-create transition accepts a submitted name exactly
when its whitespace-trimmed form is non-blank and solely alphabetic and
numeric, and on acceptance the `".md"` suffix is appended to the trimmed
name before the target path is constructed (the target is the current
directory joined with the suffixed name); on rejection only the status
message changes. -/
theorem C7_filename_validation (input : String) :
    (fileCreateDecision input = none ↔
      (trimSpace input = "" ∨ isAlnumName (trimSpace input) = false)) ∧
    (∀ out, fileCreateDecision input = some out →
      trimSpace input ≠ "" ∧ isAlnumName (trimSpace input) = true ∧
      out = trimSpace input ++ ".md") ∧
    (∀ (s : Session) (w : World), s.state = ViewState.fileCreate → s.inputVal = input →
      (fileCreateDecision input = none →
        handleEnter s w =
          ({ s with status :=
              if trimSpace input = "" then "File name cannot be empty"
              else "Invalid file name: use only letters and digits" }, w)) ∧
      (∀ out, fileCreateDecision input = some out →
        handleEnter s w =
          (if insideVault (.abs s.vault) (.abs (joinPath s.current out)) then
            match FS.openExcl w.fs (joinPath s.current out) with
            | .error e => ({ s with status := "Error: " ++ e }, w)
            | .ok fs2 =>
              (refreshFileList
                { s with
                  state := .fileList
                  status := "File created: " ++ relOrBase s.vault (joinPath s.current out) }
                ⟨fs2, w.reg⟩, ⟨fs2, w.reg⟩)
          else ({ s with status := "Error: path escapes vault" }, w)))) := by
  refine ⟨?_, ?_, ?_⟩
  · unfold fileCreateDecision
    by_cases h1 : trimSpace input = "" <;> by_cases h2 : isAlnumName (trimSpace input) <;>
      simp [h1, h2]
  · exact fun out hout => fileCreateDecision_some_spec input out hout
  · intro s w hstate hinput
    constructor
    · intro hnone
      unfold fileCreateDecision at hnone
      unfold handleEnter
      rw [hstate, hinput]
      by_cases h1 : trimSpace input = ""
      · simp [h1]
      · by_cases h2 : isAlnumName (trimSpace input)
        · simp [h1, h2] at hnone
        · simp [h1, h2]
    · intro out hout
      unfold fileCreateDecision at hout
      by_cases h1 : trimSpace input = ""
      · simp [h1] at hout
      · by_cases h2 : isAlnumName (trimSpace input)
        · simp only [if_neg h1, h2, not_true_eq_false, if_false, Option.some.injEq] at hout
          unfold handleEnter
          rw [hstate, hinput]
          simp only [if_neg h1, h2, not_true_eq_false, if_false]
          unfold safePath
          rw [hout]
          by_cases hg : insideVault (.abs s.vault) (.abs (joinPath s.current out)) = true
          · simp [hg]
          · simp [hg]
        · simp [h1, h2] at hout

/-- Witness for C7 at the concrete names of the claim: `"Note1"` accepted
with the `".md"` suffix appended, `"my note"`, `"note.txt"` and `"../x"`
rejected. -/
theorem C7_witness :
    ((trimSpace "Note1" ≠ "" ∧ isAlnumName (trimSpace "Note1") = true ∧
        ("Note1.md" : String) = trimSpace "Note1" ++ ".md") ∧
      fileCreateDecision "my note" = none ∧
      fileCreateDecision "note.txt" = none ∧
      fileCreateDecision "../x" = none) :=
  ⟨(C7_filename_validation "Note1").2.1 "Note1.md" (by decide),
    (C7_filename_validation "my note").1.mpr (Or.inr (by decide)),
    (C7_filename_validation "note.txt").1.mpr (Or.inr (by decide)),
    (C7_filename_validation "../x").1.mpr (Or.inr (by decide))⟩

/-- C4: exclusive-create semantics — `O_CREATE|O_EXCL` fails on any path
where something already exists, and the file-create transition on an
existing target reports the error in the status, changes nothing else in
the session, and leaves the existing file's content untouched. -/
theorem C4_exclusive_create :
    (∀ (fs : FS) (p : AbsPath) (n : FSNode), FS.lookup fs p = some n →
      FS.openExcl fs p = Except.error "file exists") ∧
    (∀ (s : Session) (w : World) (out : String) (target : AbsPath) (c : String),
      s.state = ViewState.fileCreate →
      fileCreateDecision s.inputVal = some out →
      safePath s out = Except.ok target →
      FS.lookup w.fs target = some (FSNode.file c) →
      handleEnter s w = ({ s with status := "Error: file exists" }, w) ∧
      FS.lookup (handleEnter s w).2.fs target = some (FSNode.file c)) := by
  constructor
  · intro fs p n hlook
    unfold FS.openExcl FS.existsAt
    rw [hlook]
    simp
  · intro s w out target c hstate hdec hsafe hlook
    have hout := fileCreateDecision_some_spec s.inputVal out hdec
    have hmain : handleEnter s w = ({ s with status := "Error: file exists" }, w) := by
      unfold handleEnter
      rw [hstate]
      simp only [if_neg hout.1, hout.2.1, not_true_eq_false, if_false]
      rw [show trimSpace s.inputVal ++ ".md" = out from hout.2.2.symm, hsafe]
      have hexcl : FS.openExcl w.fs target = Except.error "file exists" := by
        unfold FS.openExcl FS.existsAt
        rw [hlook]
        simp
      simp only [hexcl]
      rfl
    refine ⟨hmain, ?_⟩
    rw [hmain]
    exact hlook

/-- Witness for C4: creating `"Note"` in a vault where `Note.md` already
holds content fails and preserves the content. -/
theorem C4_witness :
    handleEnter
        ⟨.fileCreate, [], 0, "Note", "", ["v"], ["v"], [], .fileList, "", none⟩
        ⟨[(["v"], FSNode.dir true), (["v", "Note.md"], FSNode.file "keep me")], .missing⟩ =
      (⟨.fileCreate, [], 0, "Note", "", ["v"], ["v"], [], .fileList, "Error: file exists", none⟩,
        ⟨[(["v"], FSNode.dir true), (["v", "Note.md"], FSNode.file "keep me")], .missing⟩) ∧
    FS.lookup
        (handleEnter
          ⟨.fileCreate, [], 0, "Note", "", ["v"], ["v"], [], .fileList, "", none⟩
          ⟨[(["v"], FSNode.dir true), (["v", "Note.md"], FSNode.file "keep me")], .missing⟩).2.fs
        ["v", "Note.md"] = some (FSNode.file "keep me") :=
  (C4_exclusive_create.2 _ _ "Note.md" ["v", "Note.md"] "keep me" rfl (by decide) rfl
    (by decide))

/-- C3 counterexample: a confirm-delete whose filesystem deletion fails
(the staged file is already gone) surfaces the error in the status, but
also leaves the confirmation screen and clears the staged target — the
resulting session is not the pre-transition session with only the status
replaced, refuting the claim as stated. -/
theorem C3_counterexample :
    (confirmDelete failDeleteSession failDeleteWorld).1 ≠
      { failDeleteSession with
        status := (confirmDelete failDeleteSession failDeleteWorld).1.status } := by
  decide

/-- C3 amended: every failing mutating transition overwrites the status
message with a human-readable error description and leaves the rest of the
session unchanged — except a failing confirm-delete, which additionally
clears the staged target and returns to the previous list state.  For the
three create transitions, failing is equivalent to remaining in the same
prompt state. -/
theorem C3_error_surfacing (s : Session) (w : World) :
    ((s.state = ViewState.fileCreate ∨ s.state = ViewState.dirCreate ∨
        s.state = ViewState.vaultCreate) →
      (handleEnter s w).1.state = s.state →
      ∃ msg, msg ≠ "" ∧ (handleEnter s w).1 = { s with status := msg }) ∧
    (∀ e, s.state = ViewState.editor → FS.writeFile w.fs s.editing s.taVal = Except.error e →
      editorSave s w = ({ s with status := "Error: " ++ e }, w)) ∧
    (∀ t e, s.pending = some t → deleteOp w.fs t = Except.error e →
      confirmDelete s w =
        ({ s with
            status := "Error: " ++ e
            pending := none
            state := s.lastList }, w)) := by
  refine ⟨?_, ?_, ?_⟩
  · rintro (hstate | hstate | hstate) <;> intro hkeep
    · by_cases h1 : trimSpace s.inputVal = ""
      · refine ⟨"File name cannot be empty", by decide, ?_⟩
        unfold handleEnter
        simp [hstate, h1]
      · by_cases h2 : isAlnumName (trimSpace s.inputVal) = true
        · cases hsp : safePath s (trimSpace s.inputVal ++ ".md") with
          | error e =>
            refine ⟨"Error: " ++ e, append_ne_empty _ _ (by decide), ?_⟩
            unfold handleEnter
            simp [hstate, h1, h2, hsp]
          | ok target =>
            cases hoe : FS.openExcl w.fs target with
            | error e =>
              refine ⟨"Error: " ++ e, append_ne_empty _ _ (by decide), ?_⟩
              unfold handleEnter
              simp [hstate, h1, h2, hsp, hoe]
            | ok fs2 =>
              exfalso
              have hstnew : (handleEnter s w).1.state = ViewState.fileList := by
                unfold handleEnter
                simp [hstate, h1, h2, hsp, hoe, refreshFileList_state]
              rw [hkeep, hstate] at hstnew
              exact absurd hstnew (by decide)
        · refine ⟨"Invalid file name: use only letters and digits", by decide, ?_⟩
          unfold handleEnter
          simp [hstate, h1, h2]
    · by_cases h1 : trimSpace s.inputVal = ""
      · refine ⟨"Directory name cannot be empty", by decide, ?_⟩
        unfold handleEnter
        simp [hstate, h1]
      · cases hsp : safePath s (trimSpace s.inputVal) with
        | error e =>
          refine ⟨"Error: " ++ e, append_ne_empty _ _ (by decide), ?_⟩
          unfold handleEnter
          simp [hstate, h1, hsp]
        | ok target =>
          cases hmk : FS.mkdirAll w.fs target with
          | error e =>
            refine ⟨"Error: " ++ e, append_ne_empty _ _ (by decide), ?_⟩
            unfold handleEnter
            simp [hstate, h1, hsp, hmk]
          | ok fs2 =>
            exfalso
            have hstnew : (handleEnter s w).1.state = ViewState.fileList := by
              unfold handleEnter
              simp [hstate, h1, hsp, hmk, refreshFileList_state]
            rw [hkeep, hstate] at hstnew
            exact absurd hstnew (by decide)
    · by_cases h1 : trimSpace s.inputVal = ""
      · refine ⟨"Vault name cannot be empty", by decide, ?_⟩
        unfold handleEnter
        simp [hstate, h1]
      · cases hmk : FS.mkdir w.fs (joinPath vaultStorageRoot (trimSpace s.inputVal)) with
        | error e =>
          refine ⟨"Error: " ++ e, append_ne_empty _ _ (by decide), ?_⟩
          unfold handleEnter
          simp [hstate, h1, hmk]
        | ok fs2 =>
          cases hreg : registerVault w.reg (joinPath vaultStorageRoot (trimSpace s.inputVal)) with
          | error e =>
            refine ⟨"Vault created, but registry update failed: " ++ e,
              append_ne_empty _ _ (by decide), ?_⟩
            unfold handleEnter
            simp [hstate, h1, hmk, hreg]
          | ok reg2 =>
            exfalso
            have hstnew : (handleEnter s w).1.state = ViewState.fileList := by
              unfold handleEnter
              simp [hstate, h1, hmk, hreg, refreshFileList_state]
            rw [hkeep, hstate] at hstnew
            exact absurd hstnew (by decide)
  · intro e _hst herr
    unfold editorSave
    rw [herr]
  · intro t e hp herr
    unfold confirmDelete
    rw [hp]
    simp only [herr]

/-- Witness for C3: a blank file name fails and only the status changes; a
confirm-delete of an already-missing file fails with the amended frame. -/
theorem C3_witness :
    (∃ msg, msg ≠ "" ∧
      (handleEnter (⟨.fileCreate, [], 0, "", "", ["v"], ["v"], [], .fileList, "", none⟩ : Session)
          (⟨[(["v"], FSNode.dir true)], .missing⟩ : World)).1 =
        { (⟨.fileCreate, [], 0, "", "", ["v"], ["v"], [], .fileList, "", none⟩ : Session) with
          status := msg }) ∧
    confirmDelete failDeleteSession failDeleteWorld =
      ({ failDeleteSession with
          status := "Error: no such file or directory"
          pending := none
          state := ViewState.fileList }, failDeleteWorld) :=
  ⟨(C3_error_surfacing
      (⟨.fileCreate, [], 0, "", "", ["v"], ["v"], [], .fileList, "", none⟩ : Session)
      (⟨[(["v"], FSNode.dir true)], .missing⟩ : World)).1 (Or.inl rfl) (by decide),
   (C3_error_surfacing failDeleteSession failDeleteWorld).2.2
     ⟨["v", "gone.md"], "gone.md", false, false⟩ "no such file or directory" rfl rfl⟩

theorem lookup_removeAll (fs : FS) (p k : AbsPath) (h : p <+: k) :
    FS.lookup (FS.removeAll fs p) k = none := by
  unfold FS.lookup FS.removeAll
  have hnone : (fs.filter (fun kv => ¬ p.isPrefixOf kv.1)).find? (fun kv => kv.1 == k) = none := by
    rw [List.find?_eq_none]
    intro kv hkv hbeq
    have hpref := (List.mem_filter.mp hkv).2
    have hk : kv.1 = k := by simpa using hbeq
    rw [hk] at hpref
    simp only [decide_eq_true_eq] at hpref
    exact hpref ( List.isPrefixOf_iff_prefix.mpr h)
  rw [hnone]

theorem getVaults_fs (w : World) : (getVaults w).2.fs = w.fs := rfl

theorem getVaults_reg (w : World) (l : List AbsPath) (h : loadVaultRegistry w.reg = Except.ok l) :
    (getVaults w).2.reg =
      saveVaultRegistry ((l.filterMap (fun p =>
        if FS.isDirAt w.fs (clean p) then some (clean p) else none)).map
        (fun p => RawEntry.path (GoPath.abs p))) := by
  unfold getVaults
  rw [h]

theorem mem_load_save_entries (X : List AbsPath) (c : AbsPath)
    (h : c ∈ List.insertionSort regLE
      (canonDedup (X.map (fun p => RawEntry.path (GoPath.abs p))))) :
    ∃ u ∈ X, c = clean u := by
  have hmem := (List.perm_insertionSort regLE _).mem_iff.mp h
  rcases (mem_canonDedup _ _).mp hmem with ⟨e, he, hce⟩
  rcases List.mem_map.mp he with ⟨u, hu, rfl⟩
  refine ⟨u, hu, ?_⟩
  simp only [canonEntry, filepathAbs, Option.some.injEq] at hce
  exact hce.symm

/-- C6: confirming the deletion of a staged directory removes the target
and every descendant of it from the filesystem; when the target is a vault
root, every registry entry resolving to the same canonical path is also
removed, so a subsequent registry load (which succeeds) no longer contains
that vault. -/
theorem C6_delete_directory_and_vault (s : Session) (w : World) (t : DeleteTarget)
    (hp : s.pending = some t) (hd : t.isDir = true) :
    (∀ k, t.path <+: k → FS.lookup (confirmDelete s w).2.fs k = none) ∧
    (t.isVault = true → ∀ l0, loadVaultRegistry w.reg = Except.ok l0 →
      ∃ l, loadVaultRegistry (confirmDelete s w).2.reg = Except.ok l ∧
        (∀ v ∈ l, clean v ≠ clean t.path) ∧ clean t.path ∉ l) := by
  have hdel : deleteOp w.fs t = .ok (FS.removeAll w.fs t.path) := by
    unfold deleteOp
    rw [hd]
    rfl
  have hfs : (confirmDelete s w).2.fs = FS.removeAll w.fs t.path := by
    unfold confirmDelete
    rw [hp]
    simp only [hdel]
    by_cases hv : t.isVault = true
    · simp only [hv, if_true]
      cases unregisterVault w.reg t.path <;> rfl
    · simp only [hv, if_false, Bool.false_eq_true]
  constructor
  · intro k hk
    rw [hfs]
    exact lookup_removeAll _ _ _ hk
  · intro hv l0 hl0
    have hu : unregisterVault w.reg t.path = Except.ok
        (saveVaultRegistry
          ((l0.filter (fun v => ¬ samePath (.abs v) (.abs (clean t.path)) = true)).map
            (fun p => RawEntry.path (GoPath.abs p)))) := by
      unfold unregisterVault
      rw [hl0]
      rfl
    have hreg : (confirmDelete s w).2.reg =
        (getVaults ⟨FS.removeAll w.fs t.path,
          saveVaultRegistry
            ((l0.filter (fun v => ¬ samePath (.abs v) (.abs (clean t.path)) = true)).map
              (fun p => RawEntry.path (GoPath.abs p)))⟩).2.reg := by
      unfold confirmDelete
      rw [hp]
      simp only [hdel, hv, if_true, hu]
    set filtered := l0.filter (fun v => ¬ samePath (.abs v) (.abs (clean t.path)) = true)
      with hfiltered
    set L1 := List.insertionSort regLE
      (canonDedup (filtered.map (fun p => RawEntry.path (GoPath.abs p)))) with hL1
    have hload1 : loadVaultRegistry
        (saveVaultRegistry (filtered.map (fun p => RawEntry.path (GoPath.abs p)))) =
        Except.ok L1 := load_save _
    rw [getVaults_reg _ L1 hload1] at hreg
    set validPaths := L1.filterMap (fun p =>
      if FS.isDirAt (FS.removeAll w.fs t.path) (clean p) then some (clean p) else none)
      with hvalid
    have hfinal : loadVaultRegistry (confirmDelete s w).2.reg =
        Except.ok (List.insertionSort regLE
          (canonDedup (validPaths.map (fun p => RawEntry.path (GoPath.abs p))))) := by
      rw [hreg]
      exact load_save _
    have hall : ∀ v ∈ List.insertionSort regLE
        (canonDedup (validPaths.map (fun p => RawEntry.path (GoPath.abs p)))),
        clean v ≠ clean t.path := by
      intro v hvmem
      rcases mem_load_save_entries validPaths v hvmem with ⟨u, hu2, rfl⟩
      rcases List.mem_filterMap.mp hu2 with ⟨q, hq, hqe⟩
      by_cases hdq : FS.isDirAt (FS.removeAll w.fs t.path) (clean q) = true
      · rw [if_pos hdq] at hqe
        rcases Option.some.inj hqe with rfl
        rcases mem_load_save_entries filtered q hq with ⟨x, hx, hqx⟩
        have hxne := (List.mem_filter.mp hx).2
        simp only [decide_eq_true_eq] at hxne
        have hxc : clean x ≠ clean t.path := by
          intro hcontra
          apply hxne
          show (clean x == clean (clean t.path)) = true
          rw [clean_clean, hcontra]
          simp
        rw [hqx]
        simp only [clean_clean]
        exact hxc
      · rw [if_neg hdq] at hqe
        exact absurd hqe (by simp)
    exact ⟨_, hfinal, hall, fun hmem2 => (hall _ hmem2) (clean_clean t.path)⟩

/-- Witness for C6: deleting vault `/v/A` removes its descendant note and
leaves a registry that loads without `/v/A`. -/
theorem C6_witness :
    FS.lookup (confirmDelete c6Session c6World).2.fs ["v", "A", "n.md"] = none ∧
    loadVaultRegistry (confirmDelete c6Session c6World).2.reg = Except.ok [["v", "B"]] :=
  ⟨(C6_delete_directory_and_vault c6Session c6World ⟨["v", "A"], "A", true, true⟩ rfl rfl).1
      ["v", "A", "n.md"] (by decide),
   rfl⟩

/-- C9 amended: for every readable directory, the refreshed listing is the
parent row (present exactly when the current directory is not the vault
root) followed by the directory's entries sorted with directories before
files and, within each group, case-insensitively by displayed title — for
directories the title is the name plus a trailing separator, which departs
from pure name order exactly when one directory name extends another with
a character that sorts before the separator. -/
theorem C9_listing (s : Session) (w : World) (files : List (Seg × Bool))
    (h : FS.readDir w.fs s.current = Except.ok files) :
    ∃ sorted, refreshFileList s w =
        { s with items :=
            (if samePath (GoPath.abs s.current) (GoPath.abs s.vault) then []
             else [upItem s.current]) ++ sorted } ∧
      List.Perm sorted (files.map (entryItem s.current)) ∧
      List.Sorted entryLE sorted ∧
      (∀ (i j : Fin sorted.length), i < j → (sorted.get j).isDir = true →
        (sorted.get i).isDir = true) ∧
      (∀ (i j : Fin sorted.length), i < j → (sorted.get i).isDir = (sorted.get j).isDir →
        titleKey (sorted.get i).title ≤ titleKey (sorted.get j).title) := by
  refine ⟨List.insertionSort entryLE (files.map (entryItem s.current)), ?_,
    List.perm_insertionSort _ _, List.sorted_insertionSort _ _, ?_, ?_⟩
  · unfold refreshFileList
    rw [h]
  · intro i j hij hj
    have hrel := (List.sorted_insertionSort entryLE
      (files.map (entryItem s.current))).rel_get_of_lt hij
    rcases hrel with ⟨ha, _⟩ | ⟨heq, _⟩
    · exact ha
    · rw [heq]
      exact hj
  · intro i j hij heq
    have hrel := (List.sorted_insertionSort entryLE
      (files.map (entryItem s.current))).rel_get_of_lt hij
    rcases hrel with ⟨ha, hb⟩ | ⟨_, hle⟩
    · rw [ha, hb] at heq
      exact absurd heq (by decide)
    · exact hle

/-- C9 counterexample: two sibling directories named `"a"` and `"a.b"` are
listed in the order `a.b`, `a`, because the sort key is the displayed
title with its trailing separator (`'.'` sorts before the separator) —
not case-insensitive lexicographic order on the names, which puts `"a"`
first. -/
theorem C9_counterexample :
    (refreshFileList c9Session c9World).items.map (fun it => it.title) = ["a.b/", "a/"] ∧
    (refreshFileList c9Session c9World).items.map (fun it => baseName it.path) =
      ["a.b", "a"] ∧
    titleKey "a" ≤ titleKey "a.b" ∧ ¬ titleKey "a.b" ≤ titleKey "a" := by
  exact ⟨by decide, by decide, by decide, by decide⟩

/-- Witness for C9 at a concrete directory holding one file and one
subdirectory. -/
theorem C9_witness :
    ∃ sorted, refreshFileList c9wSession c9wWorld =
        { c9wSession with items :=
            (if samePath (GoPath.abs c9wSession.current) (GoPath.abs c9wSession.vault) then []
             else [upItem c9wSession.current]) ++ sorted } ∧
      List.Perm sorted
        ([("note.md", false), ("sub", true)].map (entryItem c9wSession.current)) ∧
      List.Sorted entryLE sorted ∧
      (∀ (i j : Fin sorted.length), i < j → (sorted.get j).isDir = true →
        (sorted.get i).isDir = true) ∧
      (∀ (i j : Fin sorted.length), i < j → (sorted.get i).isDir = (sorted.get j).isDir →
        titleKey (sorted.get i).title ≤ titleKey (sorted.get j).title) :=
  C9_listing c9wSession c9wWorld [("note.md", false), ("sub", true)] rfl

/-- C2 failing trace: open vault `/data/VaultA` from the vault list; its
directory cannot be read, so `refreshFileList` only sets an error status
and the file list keeps the stale vault-select rows.  Selecting the stale
row for `/data/VaultB` and pressing delete then confirm stages and
executes `os.RemoveAll` on `/data/VaultB` — a path outside the active
vault (`insideVault` rejects it) — from the FileList/ConfirmDelete states,
deleting another vault's entire tree. -/
theorem C2_containment_violation :
    insideVault (GoPath.abs ["data", "VaultA"]) (GoPath.abs ["data", "VaultB"]) = false ∧
    FS.lookup c2World.fs ["data", "VaultB", "note.md"] = some (.file "hi") ∧
    (let sw0 := initSession c2World
     let sw1 := step sw0.1 sw0.2 (.select 0)
     let sw2 := step sw1.1 sw1.2 .keyEnter
     let sw3 := step sw2.1 sw2.2 (.select 1)
     let sw4 := step sw3.1 sw3.2 .keyCtrlX
     let sw5 := step sw4.1 sw4.2 .keyY
     sw2.1.state = ViewState.fileList ∧
     sw2.1.vault = ["data", "VaultA"] ∧
     sw2.1.current = ["data", "VaultA"] ∧
     sw4.1.state = ViewState.confirmDelete ∧
     sw4.1.lastList = ViewState.fileList ∧
     sw4.1.pending = some ⟨["data", "VaultB"], "../VaultB", true, false⟩ ∧
     sw5.1.state = ViewState.fileList ∧
     sw5.1.vault = ["data", "VaultA"] ∧
     FS.lookup sw5.2.fs ["data", "VaultB"] = none ∧
     FS.lookup sw5.2.fs ["data", "VaultB", "note.md"] = none) := by
  exact ⟨by decide, by decide, by decide⟩

end GoNo
